import Mathlib

/-!
Verification of `generate_sitemaps.py`: streaming a CSV column of product
links into sitemap part files plus a sitemap index.

Shallow embedding conventions:

* the link column of the CSV is a `List (Option String)`, one entry per row,
  `none` for a missing (NA) value; pandas chunked reading preserves row
  order and only the link column is read, so the chunk boundaries are
  irrelevant to the yielded sequence and are not modelled;
* `iter_links` (lines 16-24) becomes a pure function on that list;
* `write_urlset_xml` (lines 27-37) is modelled by the sequence of `<loc>`
  texts it writes, in order;
* `write_index_xml` (lines 40-52) is modelled by the sequence of
  `(loc, lastmod)` pairs it writes; the single `utcnow()` read at line 42 is
  the `UTCTime` parameter, consumed exactly once;
* `main` (lines 55-92) becomes `runMain`, returning either the written part
  files together with the index entries, or the `SystemExit` message
  (Python exits with status 1 when `SystemExit` carries a string).
-/

namespace Sitemap

/-- Python `str.strip()` whitespace test, restricted to the ASCII whitespace
characters (` `, `\t`, `\n`, `\r`, `\x0b`, `\x0c`). -/
def pyIsSpace (c : Char) : Bool :=
  c = ' ' || c = '\t' || c = '\n' || c = '\r' || c = '\x0b' || c = '\x0c'

/-- Python `str.strip()` on the underlying character list: drop leading and
trailing whitespace. -/
def stripData (l : List Char) : List Char :=
  ((l.dropWhile pyIsSpace).reverse.dropWhile pyIsSpace).reverse

/-- Python `str.strip()` on strings (pandas `.str.strip()`, line 22). -/
def pyStrip (s : String) : String := ⟨stripData s.data⟩

/-- `iter_links` (lines 16-24): drop NA cells, keep values as strings, strip
whitespace, and keep only values that are non-empty after stripping, in
source order.  (`astype(str)` is the identity here because the column is
already read with `dtype=str`.) -/
def iter_links (cells : List (Option String)) : List String :=
  ((cells.filterMap id).map pyStrip).filter fun u => u != ""

/-- The characters of `"&amp;"`. -/
def ampEnt : List Char := ['&', 'a', 'm', 'p', ';']

/-- The characters of `"&lt;"`. -/
def ltEnt : List Char := ['&', 'l', 't', ';']

/-- The characters of `"&gt;"`. -/
def gtEnt : List Char := ['&', 'g', 't', ';']

/-- Python `str.replace(pat, repl)` for a single-character pattern, the only
form the script uses: `str.replace` scans left to right replacing every
occurrence, which for a one-character pattern is exactly this character-wise
map. -/
def replaceChar (p : Char) (repl : List Char) : List Char → List Char
  | [] => []
  | c :: rest => (if c = p then repl else [c]) ++ replaceChar p repl rest

/-- Line 33: `u.replace("&", "&amp;").replace("<", "&lt;").replace(">", "&gt;")`,
the three replacements applied in that order. -/
def escapeLocData (l : List Char) : List Char :=
  replaceChar '>' gtEnt (replaceChar '<' ltEnt (replaceChar '&' ampEnt l))

/-- The `<loc>` text written for a URL (line 33, on strings). -/
def escapeLoc (u : String) : String := ⟨escapeLocData u.data⟩

/-- Single-pass escaping map, following the spec's wording: each character is
escaped at most once (`&` to `&amp;`, `<` to `&lt;`, `>` to `&gt;`), so no
entity is double-escaped. -/
def escCharSpec (c : Char) : List Char :=
  if c = '&' then ampEnt else if c = '<' then ltEnt
  else if c = '>' then gtEnt else [c]

/-- Spec-side escape: one simultaneous pass over the characters. -/
def escapeLocSpec (u : String) : String := ⟨u.data.flatMap escCharSpec⟩

/-- Decoding of the three XML entities `&amp;`, `&lt;`, `&gt;`: scan left to
right; at each `&` that starts an entity, emit the decoded character and skip
the entity; every other character is copied unchanged. -/
def unescapeData : List Char → List Char
  | [] => []
  | '&' :: 'a' :: 'm' :: 'p' :: ';' :: t => '&' :: unescapeData t
  | '&' :: 'l' :: 't' :: ';' :: t => '<' :: unescapeData t
  | '&' :: 'g' :: 't' :: ';' :: t => '>' :: unescapeData t
  | c :: rest => c :: unescapeData rest

/-- Entity decoding on strings. -/
def unescapeLoc (s : String) : String := ⟨unescapeData s.data⟩

/-- Valid XML character data: no raw `<` or `>`, and every `&` starts one of
the three entities `&amp;`, `&lt;`, `&gt;` (whose remaining characters are
ordinary).  Text satisfying this can stand between `<loc>` and `</loc>` in a
well-formed XML document. -/
def validXmlCharData : List Char → Bool
  | [] => true
  | '&' :: 'a' :: 'm' :: 'p' :: ';' :: t => validXmlCharData t
  | '&' :: 'l' :: 't' :: ';' :: t => validXmlCharData t
  | '&' :: 'g' :: 't' :: ';' :: t => validXmlCharData t
  | '&' :: _ => false
  | '<' :: _ => false
  | '>' :: _ => false
  | _ :: rest => validXmlCharData rest

/-- `write_urlset_xml` (lines 27-37), modelled by the ordered sequence of
`<loc>` texts written into the part file. -/
def write_urlset_xml (urls : List String) : List String := urls.map escapeLoc

/-- Python `f"{part:05d}"` for a natural number: zero-pad to width 5. -/
def pad5 (n : Nat) : String :=
  ⟨List.replicate (5 - (toString n).length) '0'⟩ ++ toString n

/-- `f"{args.basename}{part:05d}.xml"` (lines 77 and 84). -/
def partFileName (basename : String) (part : Nat) : String :=
  basename ++ pad5 part ++ ".xml"

/-- A UTC wall-clock reading at seconds precision (the `microsecond=0`
replacement at line 42 discards the sub-second field). -/
structure UTCTime where
  year : Nat
  month : Nat
  day : Nat
  hour : Nat
  minute : Nat
  second : Nat

/-- Two-digit zero padding, as `datetime.isoformat` uses for month, day,
hour, minute and second. -/
def pad2 (n : Nat) : String := if n < 10 then "0" ++ toString n else toString n

/-- Four-digit zero padding, as `datetime.isoformat` uses for the year. -/
def pad4 (n : Nat) : String :=
  ⟨List.replicate (4 - (toString n).length) '0'⟩ ++ toString n

/-- Line 42: `dt.datetime.utcnow().replace(microsecond=0).isoformat() + "Z"`,
the single generation timestamp string. -/
def isoTimestampZ (t : UTCTime) : String :=
  pad4 t.year ++ "-" ++ pad2 t.month ++ "-" ++ pad2 t.day ++ "T" ++
    pad2 t.hour ++ ":" ++ pad2 t.minute ++ ":" ++ pad2 t.second ++ "Z"

/-- Python `base_url.rstrip("/")` (line 41): drop all trailing slashes. -/
def rstripSlash (s : String) : String :=
  ⟨(s.data.reverse.dropWhile (fun c => c = '/')).reverse⟩

/-- `write_index_xml` (lines 40-52), modelled by the ordered `(loc, lastmod)`
pairs of its `<sitemap>` entries; `t` is the single `utcnow()` reading made at
line 42, after all part files are written and before any entry is emitted. -/
def write_index_xml (baseUrl : String) (t : UTCTime) (partNames : List String) :
    List (String × String) :=
  partNames.map fun name => (rstripSlash baseUrl ++ "/" ++ name, isoTimestampZ t)

/-- The mutable state of `main`'s loop (lines 70-81): the batch buffer, the
next part ordinal, and the part files written so far as
`(filename, loc texts)` pairs. -/
structure LoopState where
  buf : List String
  part : Nat
  written : List (String × List String)

/-- Lines 70-72: `part_names = []`, `buf = []`, `part = 1`.  (`written` pairs
each recorded name with the part file's content.) -/
def initState : LoopState := ⟨[], 1, []⟩

/-- One iteration of the `for u in urls_iter` loop (lines 74-81): append to
the buffer; if the buffer has reached `per_file` elements, write the urlset,
record the name, clear the buffer and advance the ordinal. -/
def mainStep (basename : String) (perFile : Int) (st : LoopState) (u : String) :
    LoopState :=
  let buf2 := st.buf ++ [u]
  if perFile ≤ (buf2.length : Int) then
    ⟨[], st.part + 1,
      st.written ++ [(partFileName basename st.part, write_urlset_xml buf2)]⟩
  else
    ⟨buf2, st.part, st.written⟩

/-- The whole `for` loop, folded over the produced URL sequence. -/
def mainFold (basename : String) (perFile : Int) : LoopState → List String → LoopState
  | st, [] => st
  | st, u :: rest => mainFold basename perFile (mainStep basename perFile st u) rest

/-- The part files `main` writes (lines 70-86): the loop, then the final
flush of a non-empty remainder buffer (lines 83-86). -/
def finalParts (basename : String) (perFile : Int) (urls : List String) :
    List (String × List String) :=
  if (mainFold basename perFile initState urls).buf.isEmpty then
    (mainFold basename perFile initState urls).written
  else
    (mainFold basename perFile initState urls).written
      ++ [(partFileName basename (mainFold basename perFile initState urls).part,
            write_urlset_xml (mainFold basename perFile initState urls).buf)]

/-- `main` (lines 55-92) as a pure function of the link column's cells, the
`--per-file` limit (a Python `int`, so possibly non-positive), the part
basename, the public base URL and the UTC time read at index-write time.
Returns the written part files and index entries, or the `SystemExit`
message raised at line 89 (which exits with status 1 and writes nothing
further: in particular no index file). -/
def runMain (cells : List (Option String)) (perFile : Int) (basename baseUrl : String)
    (t : UTCTime) :
    Except String (List (String × List String) × List (String × String)) :=
  if (finalParts basename perFile (iter_links cells)).isEmpty then
    Except.error "No URLs found in the CSV; aborting."
  else
    Except.ok (finalParts basename perFile (iter_links cells),
      write_index_xml baseUrl t
        ((finalParts basename perFile (iter_links cells)).map Prod.fst))

/-! ### Lemmas about the `<loc>` escaping -/

theorem replaceChar_append (p : Char) (repl a b : List Char) :
    replaceChar p repl (a ++ b) = replaceChar p repl a ++ replaceChar p repl b := by
  induction a with
  | nil => rfl
  | cons c rest ih => simp [replaceChar, ih]

/-- The three sequential replacements of line 33 act as one simultaneous
character-wise substitution: replacing `&` first means the ampersands
introduced by `&lt;`/`&gt;` are never re-escaped, and `&amp;` introduces no
`<` or `>` for the later passes to touch. -/
theorem escapeLocData_eq_flatMap (l : List Char) :
    escapeLocData l = l.flatMap escCharSpec := by
  induction l with
  | nil => rfl
  | cons c rest ih =>
    have key : escapeLocData (c :: rest) = escCharSpec c ++ escapeLocData rest := by
      show replaceChar '>' gtEnt (replaceChar '<' ltEnt (replaceChar '&' ampEnt (c :: rest)))
          = escCharSpec c ++ escapeLocData rest
      rw [show replaceChar '&' ampEnt (c :: rest)
            = (if c = '&' then ampEnt else [c]) ++ replaceChar '&' ampEnt rest from rfl]
      rw [replaceChar_append, replaceChar_append]
      have head : replaceChar '>' gtEnt (replaceChar '<' ltEnt
          (if c = '&' then ampEnt else [c])) = escCharSpec c := by
        by_cases h1 : c = '&'
        · subst h1; decide
        · by_cases h2 : c = '<'
          · subst h2; decide
          · by_cases h3 : c = '>'
            · subst h3; decide
            · simp [h1, h2, h3, replaceChar, escCharSpec]
      rw [head]; rfl
    rw [key, ih, List.flatMap_cons]

theorem escapeLoc_eq_spec (u : String) : escapeLoc u = escapeLocSpec u := by
  show String.mk (escapeLocData u.data) = String.mk (u.data.flatMap escCharSpec)
  rw [escapeLocData_eq_flatMap]

/-- Decoding one non-ampersand character is transparent. -/
theorem unescapeData_cons_ne (c : Char) (t : List Char) (h : c ≠ '&') :
    unescapeData (c :: t) = c :: unescapeData t := by
  rw [unescapeData.eq_def]
  split
  · simp_all
  · simp_all
  · simp_all
  · simp_all
  · simp_all

/-- Entity decoding inverts the escaping character by character. -/
theorem unescapeData_flatMap (l : List Char) :
    unescapeData (l.flatMap escCharSpec) = l := by
  induction l with
  | nil => rfl
  | cons c rest ih =>
    rw [List.flatMap_cons]
    by_cases h1 : c = '&'
    · subst h1
      show unescapeData ('&' :: 'a' :: 'm' :: 'p' :: ';' :: rest.flatMap escCharSpec)
          = '&' :: rest
      rw [show unescapeData ('&' :: 'a' :: 'm' :: 'p' :: ';' :: rest.flatMap escCharSpec)
            = '&' :: unescapeData (rest.flatMap escCharSpec) from rfl, ih]
    · by_cases h2 : c = '<'
      · subst h2
        show unescapeData ('&' :: 'l' :: 't' :: ';' :: rest.flatMap escCharSpec)
            = '<' :: rest
        rw [show unescapeData ('&' :: 'l' :: 't' :: ';' :: rest.flatMap escCharSpec)
              = '<' :: unescapeData (rest.flatMap escCharSpec) from rfl, ih]
      · by_cases h3 : c = '>'
        · subst h3
          show unescapeData ('&' :: 'g' :: 't' :: ';' :: rest.flatMap escCharSpec)
              = '>' :: rest
          rw [show unescapeData ('&' :: 'g' :: 't' :: ';' :: rest.flatMap escCharSpec)
                = '>' :: unescapeData (rest.flatMap escCharSpec) from rfl, ih]
        · rw [show escCharSpec c = [c] from by simp [escCharSpec, h1, h2, h3]]
          rw [List.singleton_append, unescapeData_cons_ne c _ h1, ih]

theorem unescapeLoc_escapeLoc (u : String) : unescapeLoc (escapeLoc u) = u := by
  show String.mk (unescapeData (escapeLocData u.data)) = u
  rw [escapeLocData_eq_flatMap, unescapeData_flatMap]

theorem escapeLoc_injective : Function.Injective escapeLoc := by
  intro a b h
  have := congrArg unescapeLoc h
  rwa [unescapeLoc_escapeLoc, unescapeLoc_escapeLoc] at this

/-- An ordinary character passes through the XML-character-data check. -/
theorem validXmlCharData_cons_ne (c : Char) (t : List Char)
    (h1 : c ≠ '&') (h2 : c ≠ '<') (h3 : c ≠ '>') :
    validXmlCharData (c :: t) = validXmlCharData t := by
  rw [validXmlCharData.eq_def]
  split <;> simp_all

/-- The escaped text is valid XML character data: it contains no raw `<` or
`>`, and every `&` in it starts one of the three emitted entities. -/
theorem validXml_flatMap (l : List Char) :
    validXmlCharData (l.flatMap escCharSpec) = true := by
  induction l with
  | nil => rfl
  | cons c rest ih =>
    rw [List.flatMap_cons]
    by_cases h1 : c = '&'
    · subst h1
      show validXmlCharData ('&' :: 'a' :: 'm' :: 'p' :: ';' :: rest.flatMap escCharSpec)
          = true
      rw [show validXmlCharData ('&' :: 'a' :: 'm' :: 'p' :: ';' :: rest.flatMap escCharSpec)
            = validXmlCharData (rest.flatMap escCharSpec) from rfl]
      exact ih
    · by_cases h2 : c = '<'
      · subst h2
        show validXmlCharData ('&' :: 'l' :: 't' :: ';' :: rest.flatMap escCharSpec) = true
        rw [show validXmlCharData ('&' :: 'l' :: 't' :: ';' :: rest.flatMap escCharSpec)
              = validXmlCharData (rest.flatMap escCharSpec) from rfl]
        exact ih
      · by_cases h3 : c = '>'
        · subst h3
          show validXmlCharData ('&' :: 'g' :: 't' :: ';' :: rest.flatMap escCharSpec) = true
          rw [show validXmlCharData ('&' :: 'g' :: 't' :: ';' :: rest.flatMap escCharSpec)
                = validXmlCharData (rest.flatMap escCharSpec) from rfl]
          exact ih
        · rw [show escCharSpec c = [c] from by simp [escCharSpec, h1, h2, h3]]
          rw [List.singleton_append, validXmlCharData_cons_ne c _ h1 h2 h3]
          exact ih

theorem validXml_escapeLoc (u : String) : validXmlCharData (escapeLoc u).data = true := by
  show validXmlCharData (escapeLocData u.data) = true
  rw [escapeLocData_eq_flatMap]
  exact validXml_flatMap u.data

/-! ### Lemmas about the batching loop of `main` -/

theorem mainFold_cons (basename : String) (perFile : Int) (st : LoopState) (u : String)
    (rest : List String) :
    mainFold basename perFile st (u :: rest)
      = mainFold basename perFile (mainStep basename perFile st u) rest := rfl

/-- The loop body when the buffer reaches the limit: flush. -/
theorem mainStep_flush (basename : String) (perFile : Int) (st : LoopState) (u : String)
    (hf : perFile ≤ (st.buf.length : Int) + 1) :
    mainStep basename perFile st u
      = ⟨[], st.part + 1,
          st.written ++ [(partFileName basename st.part,
            write_urlset_xml (st.buf ++ [u]))]⟩ := by
  unfold mainStep
  rw [if_pos (by simpa using hf)]

/-- The loop body when the buffer is still below the limit: accumulate. -/
theorem mainStep_noflush (basename : String) (perFile : Int) (st : LoopState) (u : String)
    (hf : ¬perFile ≤ (st.buf.length : Int) + 1) :
    mainStep basename perFile st u = ⟨st.buf ++ [u], st.part, st.written⟩ := by
  unfold mainStep
  rw [if_neg (by simpa using hf)]

/-- Running the loop never loses or reorders content: the `<loc>` texts of
the flushed parts followed by the escaped pending buffer grow by exactly the
escaped incoming URLs, in order.  This holds for every `per_file` value. -/
theorem mainFold_content (basename : String) (perFile : Int) (urls : List String) :
    ∀ st : LoopState,
      ((mainFold basename perFile st urls).written.map Prod.snd).flatten
          ++ (mainFold basename perFile st urls).buf.map escapeLoc
        = (st.written.map Prod.snd).flatten ++ st.buf.map escapeLoc
          ++ urls.map escapeLoc := by
  induction urls with
  | nil => intro st; simp [mainFold]
  | cons u rest ih =>
    intro st
    rw [mainFold_cons, ih]
    by_cases hf : perFile ≤ (st.buf.length : Int) + 1
    · rw [mainStep_flush basename perFile st u hf]
      simp [write_urlset_xml, List.append_assoc]
    · rw [mainStep_noflush basename perFile st u hf]
      simp [List.append_assoc]

/-- Loop invariant for part sizes: with a positive limit, the pending buffer
stays strictly below the limit and every flushed part has exactly `per_file`
`<loc>` entries. -/
theorem mainFold_sizes (basename : String) (perFile : Int) (urls : List String) :
    ∀ st : LoopState,
      (st.buf.length : Int) < perFile →
      (∀ p ∈ st.written, ((p.2.length : Int) = perFile)) →
      ((mainFold basename perFile st urls).buf.length : Int) < perFile ∧
        ∀ p ∈ (mainFold basename perFile st urls).written,
          ((p.2.length : Int) = perFile) := by
  induction urls with
  | nil => exact fun st h1 h2 => ⟨h1, h2⟩
  | cons u rest ih =>
    intro st h1 h2
    rw [mainFold_cons]
    by_cases hf : perFile ≤ (st.buf.length : Int) + 1
    · rw [mainStep_flush basename perFile st u hf]
      refine ih _ ?_ ?_
      · show ((0 : Nat) : Int) < perFile
        push_cast
        omega
      · intro p hp
        rw [List.mem_append] at hp
        rcases hp with hp | hp
        · exact h2 p hp
        · simp only [List.mem_singleton] at hp
          subst hp
          show (((st.buf ++ [u]).map escapeLoc).length : Int) = perFile
          simp only [List.length_map, List.length_append, List.length_cons,
            List.length_nil]
          push_cast
          omega
    · rw [mainStep_noflush basename perFile st u hf]
      refine ih _ ?_ ?_
      · show (((st.buf ++ [u]).length : Nat) : Int) < perFile
        simp only [List.length_append, List.length_cons, List.length_nil]
        push_cast
        omega
      · exact h2

/-- Loop invariant for filenames: the ordinal counter is always one more than
the number of parts written, and the already-written parts are named
contiguously `basename ++ pad5 1 ++ ".xml"`, `basename ++ pad5 2 ++ ".xml"`,
and so on, in production order. -/
theorem mainFold_names (basename : String) (perFile : Int) (urls : List String) :
    ∀ st : LoopState,
      st.part = st.written.length + 1 →
      (∀ i (h : i < st.written.length),
        (st.written[i]).1 = partFileName basename (i + 1)) →
      (mainFold basename perFile st urls).part
          = (mainFold basename perFile st urls).written.length + 1 ∧
        ∀ i (h : i < (mainFold basename perFile st urls).written.length),
          ((mainFold basename perFile st urls).written[i]).1
            = partFileName basename (i + 1) := by
  induction urls with
  | nil => exact fun st h1 h2 => ⟨h1, h2⟩
  | cons u rest ih =>
    intro st h1 h2
    rw [mainFold_cons]
    by_cases hf : perFile ≤ (st.buf.length : Int) + 1
    · rw [mainStep_flush basename perFile st u hf]
      refine ih _ ?_ ?_
      · show st.part + 1 = (st.written ++ [_]).length + 1
        simp [h1]
      · intro i hi
        show ((st.written ++ [(partFileName basename st.part, _)])[i]).1
          = partFileName basename (i + 1)
        simp only [List.length_append, List.length_cons, List.length_nil] at hi
        by_cases hlt : i < st.written.length
        · rw [List.getElem_append_left hlt]
          exact h2 i hlt
        · have hieq : i = st.written.length := by omega
          rw [List.getElem_concat_length _ _ _ hieq]
          rw [h1, hieq]
    · rw [mainStep_noflush basename perFile st u hf]
      exact ih _ h1 h2

/-- With a non-positive limit the flush condition `len(buf) >= per_file`
holds after every append, so the buffer never persists and every URL becomes
its own part file. -/
theorem mainFold_nonpos (basename : String) (perFile : Int) (hp : perFile ≤ 0)
    (urls : List String) :
    ∀ st : LoopState, st.buf = [] →
      (mainFold basename perFile st urls).buf = [] ∧
        (mainFold basename perFile st urls).written.map Prod.snd
          = st.written.map Prod.snd ++ urls.map fun u => [escapeLoc u] := by
  induction urls with
  | nil => intro st h; simp [mainFold, h]
  | cons u rest ih =>
    intro st h
    rw [mainFold_cons]
    have hf : perFile ≤ (st.buf.length : Int) + 1 := by
      have : (0 : Int) ≤ (st.buf.length : Int) := Int.ofNat_nonneg _
      omega
    rw [mainStep_flush basename perFile st u hf]
    obtain ⟨ha, hb⟩ := ih ⟨[], st.part + 1,
      st.written ++ [(partFileName basename st.part,
        write_urlset_xml (st.buf ++ [u]))]⟩ rfl
    refine ⟨ha, ?_⟩
    rw [hb]
    simp [h, write_urlset_xml, List.append_assoc]

/-- The `<loc>` texts of all written part files, concatenated in production
order, are exactly the escaped produced URLs, in order. -/
theorem finalParts_content (basename : String) (perFile : Int) (urls : List String) :
    ((finalParts basename perFile urls).map Prod.snd).flatten = urls.map escapeLoc := by
  have h := mainFold_content basename perFile urls initState
  rw [show (initState.written.map Prod.snd).flatten = [] from rfl,
    show initState.buf.map escapeLoc = [] from rfl] at h
  simp only [List.nil_append] at h
  unfold finalParts
  by_cases hb : (mainFold basename perFile initState urls).buf.isEmpty
  · rw [if_pos hb]
    rw [List.isEmpty_iff.mp hb] at h
    simpa using h
  · rw [if_neg hb]
    rw [List.map_append, List.flatten_append]
    simpa [write_urlset_xml] using h

/-- The ordinal-to-filename correspondence holds for all the parts
`finalParts` writes, final flush included. -/
theorem finalParts_names (basename : String) (perFile : Int) (urls : List String) :
    ∀ i (hi : i < (finalParts basename perFile urls).length),
      ((finalParts basename perFile urls)[i]).1 = partFileName basename (i + 1) := by
  obtain ⟨h1, h2⟩ := mainFold_names basename perFile urls initState rfl
    (by intro i hi; simp [initState] at hi)
  by_cases hb : (mainFold basename perFile initState urls).buf.isEmpty
  · have hfp : finalParts basename perFile urls
        = (mainFold basename perFile initState urls).written := by
      unfold finalParts
      rw [if_pos hb]
    intro i hi
    simp only [hfp] at hi ⊢
    exact h2 i hi
  · have hfp : finalParts basename perFile urls
        = (mainFold basename perFile initState urls).written
          ++ [(partFileName basename (mainFold basename perFile initState urls).part,
                write_urlset_xml (mainFold basename perFile initState urls).buf)] := by
      unfold finalParts
      rw [if_neg hb]
    intro i hi
    simp only [hfp] at hi ⊢
    simp only [List.length_append, List.length_cons, List.length_nil] at hi
    by_cases hlt : i < (mainFold basename perFile initState urls).written.length
    · rw [List.getElem_append_left hlt]
      exact h2 i hlt
    · have hieq : i = (mainFold basename perFile initState urls).written.length := by
        omega
      rw [List.getElem_concat_length _ _ _ hieq]
      show partFileName basename (mainFold basename perFile initState urls).part = _
      rw [h1, hieq]

/-! ### The claims -/

/-- C1: for every input CSV column and positive per-file limit, concatenating
the `<loc>` texts of all written part files in production order and decoding
the XML entity escaping of each text yields exactly the URL sequence
`iter_links` produces (missing values dropped, whitespace trimmed, values
empty after trimming discarded), in the same order. -/
theorem parts_locs_decode_to_producer_sequence (cells : List (Option String))
    (perFile : Int) (basename : String) (hp : 0 < perFile) :
    (((finalParts basename perFile (iter_links cells)).map Prod.snd).flatten).map
        unescapeLoc
      = iter_links cells := by
  rw [finalParts_content, List.map_map]
  rw [show unescapeLoc ∘ escapeLoc = id from funext unescapeLoc_escapeLoc, List.map_id]

theorem parts_locs_decode_to_producer_sequence_witness :
    (0 : Int) < 2 ∧
      (((finalParts "leela-products-" 2 (iter_links
            [some " https://x.com/a?p=1&q=2 ", none, some "b", some "", some "c"])).map
          Prod.snd).flatten).map unescapeLoc
        = iter_links [some " https://x.com/a?p=1&q=2 ", none, some "b", some "", some "c"] :=
  ⟨by decide,
    parts_locs_decode_to_producer_sequence
      [some " https://x.com/a?p=1&q=2 ", none, some "b", some "", some "c"]
      2 "leela-products-" (by decide)⟩

/-- C2: for every input yielding at least one URL and every positive per-file
limit, every written part except the last contains exactly `per_file` URLs,
and the last part contains between 1 and `per_file` URLs. -/
theorem part_sizes_full_except_last (cells : List (Option String)) (perFile : Int)
    (basename : String) (hp : 0 < perFile) (hne : iter_links cells ≠ []) :
    ∃ front lastPart,
      finalParts basename perFile (iter_links cells) = front ++ [lastPart] ∧
        (∀ p ∈ front, ((p.2.length : Int) = perFile)) ∧
        1 ≤ lastPart.2.length ∧ ((lastPart.2.length : Int) ≤ perFile) := by
  obtain ⟨hbuf, hsz⟩ := mainFold_sizes basename perFile (iter_links cells) initState
    (by show ((0 : Nat) : Int) < perFile; push_cast; omega)
    (by intro p hp'; simp [initState] at hp')
  have hcontent := finalParts_content basename perFile (iter_links cells)
  unfold finalParts at hcontent ⊢
  by_cases hb : (mainFold basename perFile initState (iter_links cells)).buf.isEmpty
  · rw [if_pos hb] at hcontent ⊢
    have hwne : (mainFold basename perFile initState (iter_links cells)).written ≠ [] := by
      intro hw
      rw [hw] at hcontent
      exact hne (by simpa using hcontent.symm)
    refine ⟨_, _, (List.dropLast_append_getLast hwne).symm, ?_, ?_, ?_⟩
    · intro p hp'
      exact hsz p (List.dropLast_subset _ hp')
    · have := hsz _ (List.getLast_mem hwne)
      omega
    · have := hsz _ (List.getLast_mem hwne)
      omega
  · rw [if_neg hb] at hcontent ⊢
    have hbne : (mainFold basename perFile initState (iter_links cells)).buf ≠ [] := by
      intro hw
      rw [hw] at hb
      exact hb rfl
    refine ⟨_, _, rfl, hsz, ?_, ?_⟩
    · show 1 ≤ ((mainFold basename perFile initState
          (iter_links cells)).buf.map escapeLoc).length
      rw [List.length_map]
      exact Nat.one_le_iff_ne_zero.mpr
        (fun h0 => hbne (List.length_eq_zero.mp h0))
    · show (((mainFold basename perFile initState
          (iter_links cells)).buf.map escapeLoc).length : Int) ≤ perFile
      rw [List.length_map]
      omega

theorem part_sizes_full_except_last_witness :
    (0 : Int) < 2 ∧ iter_links [some "a", some "b", some "c"] ≠ [] ∧
      ∃ front lastPart,
        finalParts "p-" 2 (iter_links [some "a", some "b", some "c"])
            = front ++ [lastPart] ∧
          (∀ p ∈ front, ((p.2.length : Int) = 2)) ∧
          1 ≤ lastPart.2.length ∧ ((lastPart.2.length : Int) ≤ 2) :=
  ⟨by decide, by decide,
    part_sizes_full_except_last [some "a", some "b", some "c"] 2 "p-"
      (by decide) (by decide)⟩

/-- C3 (counterexample): the Producer applies no URL normalization at all:
on input `http://LeelaDiamond.com/item?x=1#frag` it yields the value
unchanged — scheme not forced to https, host not rewritten, fragment kept —
not the canonicalized `https://www.leeladiamond.com/item?x=1` the claim
requires under a retain-query configuration (no such configuration option
exists in the code). -/
theorem producer_does_not_normalize_counterexample :
    iter_links [some "http://LeelaDiamond.com/item?x=1#frag"]
        = ["http://LeelaDiamond.com/item?x=1#frag"] ∧
      iter_links [some "http://LeelaDiamond.com/item?x=1#frag"]
        ≠ ["https://www.leeladiamond.com/item?x=1"] := by
  constructor
  · decide
  · decide

/-- C3 (amended): the Producer performs no URL normalization: each cell value
is yielded verbatim after whitespace trimming (and discarded only when empty
after trimming); there is no scheme/host rewriting, no fragment dropping and
no query-string configuration. -/
theorem producer_yields_trimmed_value_verbatim (v : String) :
    iter_links [some v] = if pyStrip v = "" then [] else [pyStrip v] := by
  by_cases h : pyStrip v = ""
  · simp [iter_links, h]
  · simp [iter_links, h]

/-- C4: when the filtered URL sequence is empty, the run writes no part
files, writes no index, and terminates with the explicit `SystemExit`
failure (non-zero exit status), not a silent no-op or an empty index. -/
theorem empty_producer_aborts_without_output (cells : List (Option String))
    (perFile : Int) (basename baseUrl : String) (t : UTCTime)
    (h : iter_links cells = []) :
    finalParts basename perFile (iter_links cells) = [] ∧
      runMain cells perFile basename baseUrl t
        = Except.error "No URLs found in the CSV; aborting." := by
  have hparts : finalParts basename perFile (iter_links cells) = [] := by
    rw [h]
    rfl
  refine ⟨hparts, ?_⟩
  unfold runMain
  rw [if_pos (by rw [hparts]; rfl)]

theorem empty_producer_aborts_without_output_witness :
    iter_links [some "   ", none, some "", some " \t "] = [] ∧
      finalParts "leela-products-" 50000
          (iter_links [some "   ", none, some "", some " \t "]) = [] ∧
        runMain [some "   ", none, some "", some " \t "] 50000 "leela-products-"
            "https://www.leeladiamond.com/sitemaps" ⟨2026, 1, 2, 3, 4, 5⟩
          = Except.error "No URLs found in the CSV; aborting." :=
  ⟨by decide,
    (empty_producer_aborts_without_output _ 50000 "leela-products-"
      "https://www.leeladiamond.com/sitemaps" ⟨2026, 1, 2, 3, 4, 5⟩ (by decide)).1,
    (empty_producer_aborts_without_output _ 50000 "leela-products-"
      "https://www.leeladiamond.com/sitemaps" ⟨2026, 1, 2, 3, 4, 5⟩ (by decide)).2⟩

/-- C5: whenever the run writes at least one part file (`runMain` succeeds),
the index holds exactly one entry per part file, in production order, and
each entry's `<loc>` is the public base URL with all trailing slashes
stripped, then `/`, then that part's filename. -/
theorem index_entries_match_parts (cells : List (Option String)) (perFile : Int)
    (basename baseUrl : String) (t : UTCTime)
    (parts : List (String × List String)) (idx : List (String × String))
    (h : runMain cells perFile basename baseUrl t = Except.ok (parts, idx)) :
    idx.length = parts.length ∧
      ∀ i (hi : i < idx.length) (hp2 : i < parts.length),
        (idx[i]).1 = rstripSlash baseUrl ++ "/" ++ (parts[i]).1 := by
  unfold runMain at h
  by_cases he : (finalParts basename perFile (iter_links cells)).isEmpty
  · rw [if_pos he] at h
    exact absurd h (by simp)
  · rw [if_neg he] at h
    rw [Except.ok.injEq, Prod.mk.injEq] at h
    obtain ⟨hp, hi⟩ := h
    subst hp
    subst hi
    constructor
    · simp [write_index_xml]
    · intro i hi hp2
      simp [write_index_xml]

theorem index_entries_match_parts_witness :
    runMain [some "a", some "b", some "c"] 2 "p-" "https://www.leeladiamond.com/sitemaps//"
          ⟨2026, 1, 2, 3, 4, 5⟩
        = Except.ok ([("p-00001.xml", ["a", "b"]), ("p-00002.xml", ["c"])],
            [("https://www.leeladiamond.com/sitemaps/p-00001.xml", "2026-01-02T03:04:05Z"),
              ("https://www.leeladiamond.com/sitemaps/p-00002.xml", "2026-01-02T03:04:05Z")]) ∧
      ([("https://www.leeladiamond.com/sitemaps/p-00001.xml", "2026-01-02T03:04:05Z"),
          ("https://www.leeladiamond.com/sitemaps/p-00002.xml",
            "2026-01-02T03:04:05Z")] : List (String × String)).length
        = ([("p-00001.xml", ["a", "b"]), ("p-00002.xml", ["c"])] :
            List (String × List String)).length :=
  ⟨by rfl,
    (index_entries_match_parts [some "a", some "b", some "c"] 2 "p-"
      "https://www.leeladiamond.com/sitemaps//" ⟨2026, 1, 2, 3, 4, 5⟩ _ _ (by rfl)).1⟩

/-- C6: every `<loc>` text written into a part file is the URL with the three
sequential replacements of line 33 applied (`&` then `<` then `>`); a URL
with a retained query string containing `&` has it rendered as `&amp;`, and
every escaped text is valid XML character data, so the document stays
well-formed. -/
theorem loc_escaping_minimal (basename : String) (perFile : Int) (urls : List String) :
    ((finalParts basename perFile urls).map Prod.snd).flatten = urls.map escapeLoc ∧
      escapeLoc "?a=1&b=2" = "?a=1&amp;b=2" ∧
      ∀ u : String, validXmlCharData (escapeLoc u).data = true :=
  ⟨finalParts_content basename perFile urls, by decide, validXml_escapeLoc⟩

/-- C7 (counterexample): a non-positive per-file limit is NOT detected as a
configuration error: with `--per-file 0` the run proceeds and happily
produces output (one part file per URL), returning success instead of
failing before the first read. -/
theorem nonpositive_limit_not_rejected :
    runMain [some "a", some "b"] 0 "p-" "https://x" ⟨2026, 1, 2, 3, 4, 5⟩
      = Except.ok ([("p-00001.xml", ["a"]), ("p-00002.xml", ["b"])],
          [("https://x/p-00001.xml", "2026-01-02T03:04:05Z"),
            ("https://x/p-00002.xml", "2026-01-02T03:04:05Z")]) := by rfl

/-- C7 (amended): the run performs no validation of the per-file limit: a
non-positive limit is accepted, the flush condition `len(buf) >= per_file`
then holds after every append, and the run proceeds to write one part file
per URL (each with a single `<loc>` entry) and a matching index. -/
theorem nonpositive_limit_one_part_per_url (cells : List (Option String))
    (perFile : Int) (basename baseUrl : String) (t : UTCTime)
    (hp : perFile ≤ 0) (hne : iter_links cells ≠ []) :
    (finalParts basename perFile (iter_links cells)).map Prod.snd
        = (iter_links cells).map (fun u => [escapeLoc u]) ∧
      runMain cells perFile basename baseUrl t
        = Except.ok (finalParts basename perFile (iter_links cells),
            write_index_xml baseUrl t
              ((finalParts basename perFile (iter_links cells)).map Prod.fst)) := by
  obtain ⟨ha, hb⟩ := mainFold_nonpos basename perFile hp (iter_links cells) initState rfl
  have hparts : finalParts basename perFile (iter_links cells)
      = (mainFold basename perFile initState (iter_links cells)).written := by
    unfold finalParts
    rw [if_pos (List.isEmpty_iff.mpr ha)]
  have hsnd : (finalParts basename perFile (iter_links cells)).map Prod.snd
      = (iter_links cells).map fun u => [escapeLoc u] := by
    rw [hparts, hb]
    simp [initState]
  refine ⟨hsnd, ?_⟩
  unfold runMain
  rw [if_neg ?_]
  intro hemp
  have hmap : (finalParts basename perFile (iter_links cells)).map Prod.snd = [] := by
    rw [List.isEmpty_iff.mp hemp]
    rfl
  rw [hsnd] at hmap
  exact hne (by simpa using hmap)

theorem nonpositive_limit_one_part_per_url_witness :
    (-3 : Int) ≤ 0 ∧ iter_links [some "a"] ≠ [] ∧
      ((finalParts "p-" (-3) (iter_links [some "a"])).map Prod.snd
          = (iter_links [some "a"]).map (fun u => [escapeLoc u]) ∧
        runMain [some "a"] (-3) "p-" "https://x" ⟨2026, 1, 2, 3, 4, 5⟩
          = Except.ok (finalParts "p-" (-3) (iter_links [some "a"]),
              write_index_xml "https://x" ⟨2026, 1, 2, 3, 4, 5⟩
                ((finalParts "p-" (-3) (iter_links [some "a"])).map Prod.fst))) :=
  ⟨by decide, by decide,
    nonpositive_limit_one_part_per_url [some "a"] (-3) "p-" "https://x"
      ⟨2026, 1, 2, 3, 4, 5⟩ (by decide) (by decide)⟩

/-- C8: part-file ordinals are contiguous starting at 1, assigned in batch
production order with no gaps and no reuse, and the part at position `i`
(0-based) is named `basename`, then the ordinal `i + 1` zero-padded to 5
digits, then `.xml`. -/
theorem part_ordinals_contiguous (cells : List (Option String)) (perFile : Int)
    (basename : String) :
    ∀ i (hi : i < (finalParts basename perFile (iter_links cells)).length),
      ((finalParts basename perFile (iter_links cells))[i]).1
        = basename ++ pad5 (i + 1) ++ ".xml" :=
  fun i hi => finalParts_names basename perFile (iter_links cells) i hi

theorem part_ordinals_contiguous_witness :
    ((finalParts "leela-products-" 1 (iter_links [some "a", some "b"])).get
        ⟨1, by decide⟩).1 = "leela-products-" ++ pad5 2 ++ ".xml" :=
  part_ordinals_contiguous [some "a", some "b"] 1 "leela-products-" 1 (by decide)

/-- C9: on every successful run the index carries one shared generation
timestamp: each `<lastmod>` equals the single `isoTimestampZ t` string built
from the one `utcnow()` reading taken at index-write time (after all parts
are written), which is UTC at seconds precision in ISO-8601 form with a
literal `Z` suffix. -/
theorem index_lastmod_single_timestamp (cells : List (Option String)) (perFile : Int)
    (basename baseUrl : String) (t : UTCTime)
    (parts : List (String × List String)) (idx : List (String × String))
    (h : runMain cells perFile basename baseUrl t = Except.ok (parts, idx)) :
    (∀ e ∈ idx, e.2 = isoTimestampZ t) ∧
      isoTimestampZ t
        = (pad4 t.year ++ "-" ++ pad2 t.month ++ "-" ++ pad2 t.day ++ "T" ++
            pad2 t.hour ++ ":" ++ pad2 t.minute ++ ":" ++ pad2 t.second) ++ "Z" := by
  unfold runMain at h
  by_cases he : (finalParts basename perFile (iter_links cells)).isEmpty
  · rw [if_pos he] at h
    exact absurd h (by simp)
  · rw [if_neg he] at h
    rw [Except.ok.injEq, Prod.mk.injEq] at h
    obtain ⟨hp, hi⟩ := h
    subst hi
    constructor
    · intro e he'
      simp only [write_index_xml, List.mem_map] at he'
      obtain ⟨name, _, hname⟩ := he'
      rw [← hname]
    · show isoTimestampZ t = _
      unfold isoTimestampZ
      simp [String.append_assoc]

theorem index_lastmod_single_timestamp_witness :
    runMain [some "a"] 1 "p-" "https://x" ⟨2026, 1, 2, 3, 4, 5⟩
        = Except.ok ([("p-00001.xml", ["a"])],
            [("https://x/p-00001.xml", "2026-01-02T03:04:05Z")]) ∧
      ∀ e ∈ ([("https://x/p-00001.xml", "2026-01-02T03:04:05Z")] :
          List (String × String)),
        e.2 = isoTimestampZ ⟨2026, 1, 2, 3, 4, 5⟩ :=
  ⟨by rfl,
    (index_lastmod_single_timestamp [some "a"] 1 "p-" "https://x"
      ⟨2026, 1, 2, 3, 4, 5⟩ _ _ (by rfl)).1⟩

/-- C10: the escaping of line 33 replaces `&` before `<` and `>`, so it
equals the single-pass map that escapes each character at most once (no
double escaping); decoding the three XML entities in the emitted `<loc>`
text recovers the original URL exactly, and the escaping is injective. -/
theorem escape_decode_roundtrip :
    (∀ u : String, escapeLoc u = escapeLocSpec u) ∧
      (∀ u : String, unescapeLoc (escapeLoc u) = u) ∧
      Function.Injective escapeLoc :=
  ⟨escapeLoc_eq_spec, unescapeLoc_escapeLoc, escapeLoc_injective⟩

theorem escape_decode_roundtrip_witness :
    unescapeLoc (escapeLoc "https://x.com/a?p=1&q=<2>") = "https://x.com/a?p=1&q=<2>" :=
  escape_decode_roundtrip.2.1 "https://x.com/a?p=1&q=<2>"

end Sitemap
